import Mathlib

set_option maxRecDepth 10000

namespace Solar

/-!
Shallow embedding of the two source files of the repository:
`crates/ast/src/ast/semver.rs` (the SemVer version model and requirement
matcher) and `crates/sema/src/eval.rs` (the constant-expression evaluator over
256-bit unsigned scalars), together with theorems settling the behavioural
claims about them.
-/

/-- Source span (the `Span` of the external interface crate); only its identity
and the distinguished dummy value matter to the embedded code. -/
structure Span where
  lo : Nat
  hi : Nat
deriving DecidableEq, BEq

/-- `Span::DUMMY`. -/
def Span.DUMMY : Span := ⟨0, 0⟩

/-- `Span::is_dummy`. -/
def Span.is_dummy (s : Span) : Bool := s == Span.DUMMY

/-- `SemverVersionNumber`: a `u32` number or the wildcard `*`/`x`/`X`.
The `u32` values are modelled as naturals; the embedded code only compares
them, and `u32` comparison agrees with comparison of the natural values. -/
inductive SemverVersionNumber where
  | Number (n : Nat)
  | Wildcard
deriving DecidableEq

/-- `PartialEq for SemverVersionNumber`: the wildcard is equal to everything;
two numbers are equal as their values. -/
def svnEq : SemverVersionNumber → SemverVersionNumber → Bool
  | .Wildcard, _ => true
  | _, .Wildcard => true
  | .Number a, .Number b => a == b

/-- `Ord for SemverVersionNumber`: the wildcard compares equal to everything;
two numbers compare as their values. -/
def svnCmp : SemverVersionNumber → SemverVersionNumber → Ordering
  | .Wildcard, _ => .eq
  | _, .Wildcard => .eq
  | .Number a, .Number b => compare a b

/-- `a > b` on version numbers, derived from `Ord` (`cmp == Greater`), as used
by `matches_caret`. -/
def svnGt (a b : SemverVersionNumber) : Bool := svnCmp a b == .gt

/-- `SemverVersion`: `major` plus optional `minor` and `patch`, with its
source span. -/
structure SemverVersion where
  span : Span
  major : SemverVersionNumber
  minor : Option SemverVersionNumber
  patch : Option SemverVersionNumber
deriving DecidableEq

/-- The helper `cmp_opt` inside `Ord for SemverVersion`: an absent component
compares equal to anything. -/
def cmp_opt : Option SemverVersionNumber → Option SemverVersionNumber → Ordering
  | some a, some b => svnCmp a b
  | _, _ => .eq

/-- `Ord for SemverVersion`: major, then minor, then patch
(`then_with` chaining). -/
def SemverVersion.cmp (a b : SemverVersion) : Ordering :=
  (svnCmp a.major b.major).then ((cmp_opt a.minor b.minor).then (cmp_opt a.patch b.patch))

/-- `a == b` on versions (`PartialEq for SemverVersion` is `cmp == Equal`). -/
def svEq (a b : SemverVersion) : Bool := a.cmp b == .eq

/-- `a < b` on versions, derived from `Ord`. -/
def svLt (a b : SemverVersion) : Bool := a.cmp b == .lt

/-- `a > b` on versions, derived from `Ord`. -/
def svGt (a b : SemverVersion) : Bool := a.cmp b == .gt

/-- `a <= b` on versions, derived from `Ord`. -/
def svLe (a b : SemverVersion) : Bool := a.cmp b != .gt

/-- `a >= b` on versions, derived from `Ord`. -/
def svGe (a b : SemverVersion) : Bool := a.cmp b != .lt

/-- `semver::Op`: the operators appearing in requirement components. -/
inductive SemverOp where
  | Exact
  | Greater
  | GreaterEq
  | Less
  | LessEq
  | Tilde
  | Caret
  | Wildcard
deriving DecidableEq

/-- `matches_tilde`. The source phrases its two comparisons as
`matches_op(Op::GreaterEq, a, b)` and `matches_op(Op::LessEq, .., b)`, which
are exactly `svGe`/`svLe`; they are inlined here so that the definitions need
not be mutually recursive. -/
def matches_tilde (a b : SemverVersion) : Bool :=
  if !svGe a b then false
  else svLe { a with patch := none } b

/-- `matches_caret`: like tilde, but when the tested version's major component
is greater than zero its minor is cleared as well before the upper check. -/
def matches_caret (a b : SemverVersion) : Bool :=
  if !svGe a b then false
  else
    let a1 := if svnGt a.major (.Number 0) then { a with minor := none } else a
    svLe { a1 with patch := none } b

/-- `matches_op`. The source's `semver::Op` is non-exhaustive and its default
arm (`_ => false`) is unreachable for the operators modelled here. -/
def matches_op : SemverOp → SemverVersion → SemverVersion → Bool
  | .Exact, a, b => svEq a b
  | .Greater, a, b => svGt a b
  | .GreaterEq, a, b => svGe a b
  | .Less, a, b => svLt a b
  | .LessEq, a, b => svLe a b
  | .Tilde, a, b => matches_tilde a b
  | .Caret, a, b => matches_caret a b
  | .Wildcard, _, _ => true

/-- `SemverReqComponentKind`: an operator applied to a version (absent
operator defaults to `Exact`), or an explicit range. -/
inductive SemverReqComponentKind where
  | Op (op : Option SemverOp) (v : SemverVersion)
  | Range (l : SemverVersion) (r : SemverVersion)

/-- `SemverReqComponent`. -/
structure SemverReqComponent where
  span : Span
  kind : SemverReqComponentKind

/-- `SemverReqCon`: an and-ed list of components. -/
structure SemverReqCon where
  span : Span
  components : List SemverReqComponent

/-- `SemverReq`: an or-ed list of and-ed components. -/
structure SemverReq where
  dis : List SemverReqCon

/-- `SemverReqComponentKind::matches`. -/
def SemverReqComponentKind.matches (k : SemverReqComponentKind) (version : SemverVersion) : Bool :=
  match k with
  | .Op op other => matches_op (op.getD .Exact) version other
  | .Range s t => matches_op .GreaterEq version s && matches_op .LessEq version t

/-- `SemverReqComponent::matches`. -/
def SemverReqComponent.matches (c : SemverReqComponent) (version : SemverVersion) : Bool :=
  c.kind.matches version

/-- `SemverReqCon::matches`: all components must match. -/
def SemverReqCon.matches (c : SemverReqCon) (version : SemverVersion) : Bool :=
  c.components.all (fun x => x.matches version)

/-- `SemverReq::matches`: some conjunction must match. -/
def SemverReq.matches (req : SemverReq) (version : SemverVersion) : Bool :=
  req.dis.any (fun c => c.matches version)

/-- `RECURSION_LIMIT`. -/
def RECURSION_LIMIT : Nat := 64

/-- The unsigned 256-bit range bound, `2 ^ 256`. -/
def WORD : Nat := 2 ^ 256

/-- Modelled from the spec: `ErrorGuaranteed`, the opaque reported-token
produced by the diagnostic sink (which is external to this repository),
modelled as the index of the emitted diagnostic. -/
abbrev ErrorGuaranteed := Nat

/-- `EvalErrorKind`. -/
inductive EvalErrorKind where
  | RecursionLimitReached
  | ArithmeticOverflow
  | IntTooBig
  | DivisionByZero
  | UnsupportedLiteral
  | UnsupportedUnaryOp
  | UnsupportedExpr
  | NonConstantVar
  | AlreadyEmitted (guar : ErrorGuaranteed)
deriving DecidableEq

/-- `EvalError`: a kind together with a best-effort source location. -/
structure EvalError where
  span : Span
  kind : EvalErrorKind
deriving DecidableEq

/-- `EvalErrorKind::spanned`. -/
def EvalErrorKind.spanned (k : EvalErrorKind) (sp : Span) : EvalError := ⟨sp, k⟩

/-- `From<EvalErrorKind> for EvalError`: attaches the dummy span. -/
def EvalErrorKind.toError (k : EvalErrorKind) : EvalError := ⟨Span.DUMMY, k⟩

/-- `EvalErrorKind::msg`. -/
def EvalErrorKind.msg : EvalErrorKind → String
  | .RecursionLimitReached => "recursion limit reached"
  | .ArithmeticOverflow => "arithmetic overflow"
  | .IntTooBig => "integer value is too big"
  | .DivisionByZero => "division by zero"
  | .UnsupportedLiteral => "unsupported literal"
  | .UnsupportedUnaryOp => "unsupported unary operation"
  | .UnsupportedExpr => "unsupported expression"
  | .NonConstantVar => "only constant variables are allowed"
  | .AlreadyEmitted _ => "error already emitted"

/-- `hir::UnOpKind`. -/
inductive UnOpKind where
  | PreInc
  | PreDec
  | PostInc
  | PostDec
  | Not
  | BitNot
  | Neg
deriving DecidableEq

/-- `hir::BinOpKind`. -/
inductive BinOpKind where
  | Lt | Le | Gt | Ge | Eq | Ne
  | Or | BitOr | And | BitAnd | BitXor
  | Shr | Shl | Sar
  | Add | Sub | Pow | Mul | Div | Rem
deriving DecidableEq

/-- `hir::ItemId`, restricted to what the evaluator inspects. -/
inductive ItemId where
  | Variable (v : Nat)
  | OtherItem

/-- `hir::Res`, restricted to what the evaluator inspects. -/
inductive Res where
  | Item (id : ItemId)
  | OtherRes

/-- `hir::VarMut`. -/
inductive VarMut where
  | Immutable
  | Constant
deriving DecidableEq

/-- The literal kinds (`ast::LitKind`) as inspected by `eval_lit`. -/
inductive LitKind where
  /-- `LitKind::Number`: the magnitude of the big integer. The source inspects
  its minimal big-endian bytes, whose length exceeds 32 iff the magnitude is at
  least `2 ^ 256`; otherwise the bytes load back to the magnitude itself. -/
  | Number (n : Nat)
  /-- `LitKind::Address`: the big-endian value of the 20 address bytes,
  hence below `2 ^ 160`. -/
  | Address (a : Nat)
  /-- `LitKind::Bool`: loaded from the single byte `b as u8`, i.e. 0 or 1. -/
  | Bool (b : Bool)
  /-- `LitKind::Err`. -/
  | Err (guar : ErrorGuaranteed)
  /-- The remaining literal kinds (string, rational, ...), all of which fall to
  the default `UnsupportedLiteral` arm. -/
  | OtherLit

/-- `hir::Expr`: a span plus an expression kind. The source's struct-plus-enum
pair is fused into a single inductive, each node carrying its span. The
expression kinds the evaluator leaves unimplemented (array, call, index,
member access, and so on, all falling to the default `UnsupportedExpr` arm)
are collapsed into `other`. -/
inductive Expr where
  | paren (sp : Span) (e : Expr)
  | binary (sp : Span) (l : Expr) (op : BinOpKind) (r : Expr)
  | ident (sp : Span) (rs : List Res)
  | lit (sp : Span) (k : LitKind)
  | ternary (sp : Span) (c : Expr) (t : Expr) (f : Expr)
  | unary (sp : Span) (op : UnOpKind) (v : Expr)
  | err (sp : Span) (guar : ErrorGuaranteed)
  | other (sp : Span)

/-- `Expr::span`. -/
def Expr.span : Expr → Span
  | .paren sp _ => sp
  | .binary sp _ _ _ => sp
  | .ident sp _ => sp
  | .lit sp _ => sp
  | .ternary sp _ _ _ => sp
  | .unary sp _ _ => sp
  | .err sp _ => sp
  | .other sp => sp

/-- Modelled from the spec: `Expr::peel_parens` (defined outside this
repository) strips redundant parenthesization before dispatch. -/
def Expr.peel_parens : Expr → Expr
  | .paren _ e => e.peel_parens
  | e => e

/-- `hir::Variable`, restricted to the two fields the evaluator reads. In the
source the initializer is optional and is unwrapped with
`expect("constant variable has no initializer")`; that panic is unreachable
for analyzed programs, so the embedding takes the initializer as total. -/
structure Var where
  mutability : Option VarMut
  initializer : Expr

/-- The global compilation context as used by the evaluator: lookup of a
variable declaration by id. -/
abbrev Gcx := Nat → Var

/-- `IntScalar`: a 256-bit unsigned word; `data` holds its value (below `WORD`
for every value the evaluator constructs from in-range inputs). -/
structure IntScalar where
  data : Nat
deriving DecidableEq

/-- `IntScalar::new`. -/
def IntScalar.new (data : Nat) : IntScalar := ⟨data⟩

/-- `IntScalar::from_bool`. -/
def IntScalar.from_bool (b : Bool) : IntScalar := ⟨if b then 1 else 0⟩

/-- `IntScalar::to_bool`: true iff the value is nonzero. -/
def IntScalar.to_bool (s : IntScalar) : Bool := !(s.data == 0)

/-- `r.data.try_into::<usize>().unwrap_or(usize::MAX)`: a shift amount that
does not fit a 64-bit `usize` is clamped to `usize::MAX`. -/
def usize_clamp (r : Nat) : Nat := if r < 2 ^ 64 then r else 2 ^ 64 - 1

/-- `U256::wrapping_shl`: shifting by 256 or more bits yields zero. -/
def wrapping_shl (l s : Nat) : Nat := if 256 ≤ s then 0 else l * 2 ^ s % WORD

/-- `U256::wrapping_shr`: shifting by 256 or more bits yields zero. -/
def wrapping_shr (l s : Nat) : Nat := if 256 ≤ s then 0 else l / 2 ^ s

/-- `U256::arithmetic_shr`: logical shift right with the vacated high bits
filled with the sign bit (bit 255). -/
def arithmetic_shr (l s : Nat) : Nat :=
  if 256 ≤ s then (if 2 ^ 255 ≤ l then WORD - 1 else 0)
  else if 2 ^ 255 ≤ l then l / 2 ^ s + (WORD - WORD / 2 ^ s)
  else l / 2 ^ s

/-- `U256::checked_add`: `none` iff the exact sum overflows 256 bits. -/
def checked_add (l r : Nat) : Option Nat := if l + r < WORD then some (l + r) else none

/-- `U256::checked_sub`: `none` iff the exact difference is negative. -/
def checked_sub (l r : Nat) : Option Nat := if r ≤ l then some (l - r) else none

/-- `U256::checked_mul`: `none` iff the exact product overflows 256 bits. -/
def checked_mul (l r : Nat) : Option Nat := if l * r < WORD then some (l * r) else none

/-- `U256::checked_pow`: `none` iff the exact power overflows 256 bits. -/
def checked_pow (l r : Nat) : Option Nat := if l ^ r < WORD then some (l ^ r) else none

/-- `U256::checked_div`: `none` iff the divisor is zero. -/
def checked_div (l r : Nat) : Option Nat := if r = 0 then none else some (l / r)

/-- `U256::checked_rem`: `none` iff the divisor is zero. -/
def checked_rem (l r : Nat) : Option Nat := if r = 0 then none else some (l % r)

/-- `IntScalar::unop`. `!` is the 256-bit complement; `-` is wrapping
two's-complement negation. -/
def IntScalar.unop (s : IntScalar) (op : UnOpKind) : Except EvalErrorKind IntScalar :=
  match op with
  | .PreInc | .PreDec | .PostInc | .PostDec => .error .UnsupportedUnaryOp
  | .Not | .BitNot => .ok ⟨WORD - 1 - s.data⟩
  | .Neg => .ok ⟨(WORD - s.data) % WORD⟩

/-- `IntScalar::binop`. -/
def IntScalar.binop (l r : IntScalar) (op : BinOpKind) : Except EvalErrorKind IntScalar :=
  match op with
  | .Lt => .ok (IntScalar.from_bool (decide (l.data < r.data)))
  | .Le => .ok (IntScalar.from_bool (decide (l.data ≤ r.data)))
  | .Gt => .ok (IntScalar.from_bool (decide (l.data > r.data)))
  | .Ge => .ok (IntScalar.from_bool (decide (l.data ≥ r.data)))
  | .Eq => .ok (IntScalar.from_bool (l.data == r.data))
  | .Ne => .ok (IntScalar.from_bool (l.data != r.data))
  | .Or | .BitOr => .ok ⟨l.data ||| r.data⟩
  | .And | .BitAnd => .ok ⟨l.data &&& r.data⟩
  | .BitXor => .ok ⟨l.data ^^^ r.data⟩
  | .Shr => .ok ⟨wrapping_shr l.data (usize_clamp r.data)⟩
  | .Shl => .ok ⟨wrapping_shl l.data (usize_clamp r.data)⟩
  | .Sar => .ok ⟨arithmetic_shr l.data (usize_clamp r.data)⟩
  | .Add =>
    match checked_add l.data r.data with
    | some v => .ok ⟨v⟩
    | none => .error .ArithmeticOverflow
  | .Sub =>
    match checked_sub l.data r.data with
    | some v => .ok ⟨v⟩
    | none => .error .ArithmeticOverflow
  | .Pow =>
    match checked_pow l.data r.data with
    | some v => .ok ⟨v⟩
    | none => .error .ArithmeticOverflow
  | .Mul =>
    match checked_mul l.data r.data with
    | some v => .ok ⟨v⟩
    | none => .error .ArithmeticOverflow
  | .Div =>
    match checked_div l.data r.data with
    | some v => .ok ⟨v⟩
    | none => .error .DivisionByZero
  | .Rem =>
    match checked_rem l.data r.data with
    | some v => .ok ⟨v⟩
    | none => .error .DivisionByZero

/-- `ConstantEvaluator::eval_lit`. -/
def eval_lit : LitKind → Except EvalError IntScalar
  | .Number n => if WORD ≤ n then .error EvalErrorKind.IntTooBig.toError else .ok ⟨n⟩
  | .Address a => .ok ⟨a % 2 ^ 160⟩
  | .Bool b => .ok (IntScalar.from_bool b)
  | .Err guar => .error (EvalErrorKind.AlreadyEmitted guar).toError
  | .OtherLit => .error EvalErrorKind.UnsupportedLiteral.toError

/-- The error-span back-fill in `eval_expr`: an error whose span is still the
dummy gets the enclosing expression's span. -/
def backfill (r : Except EvalError IntScalar) (sp : Span) : Except EvalError IntScalar :=
  match r with
  | .error er => .error (if er.span.is_dummy then { er with span := sp } else er)
  | .ok v => .ok v

/-- `map_err(Into::into)`: lift an `EvalErrorKind` result to an `EvalError`
result by attaching the dummy span. -/
def liftKind (r : Except EvalErrorKind IntScalar) : Except EvalError IntScalar :=
  match r with
  | .ok v => .ok v
  | .error k => .error k.toError

/-- `ConstantEvaluator::eval_expr_inner`. The evaluator's only mutable state
is its `depth` field, threaded explicitly: every evaluation takes the current
depth and returns the result together with the new depth. The recursive
evaluation of subexpressions (`self.eval_expr(..)` in the source) is
abstracted as the argument `ev`. -/
def eval_expr_inner (g : Gcx) (ev : Expr → Nat → Except EvalError IntScalar × Nat)
    (e : Expr) (depth : Nat) : Except EvalError IntScalar × Nat :=
  match e.peel_parens with
  | .binary _ l op r =>
    match ev l depth with
    | (.ok lv, d1) =>
      match ev r d1 with
      | (.ok rv, d2) => (liftKind (lv.binop rv op), d2)
      | (.error er, d2) => (.error er, d2)
    | (.error er, d1) => (.error er, d1)
  | .ident _ [Res.Item (ItemId.Variable v)] =>
    let vr := g v
    if vr.mutability ≠ some VarMut.Constant then
      (.error EvalErrorKind.NonConstantVar.toError, depth)
    else
      ev vr.initializer depth
  | .lit _ k => (eval_lit k, depth)
  | .ternary _ c t f =>
    match ev c depth with
    | (.ok cv, d1) => if cv.to_bool then ev t d1 else ev f d1
    | (.error er, d1) => (.error er, d1)
  | .unary _ op v =>
    match ev v depth with
    | (.ok vv, d1) => (liftKind (vv.unop op), d1)
    | (.error er, d1) => (.error er, d1)
  | .err _ guar => (.error (EvalErrorKind.AlreadyEmitted guar).toError, depth)
  | _ => (.error EvalErrorKind.UnsupportedExpr.toError, depth)

/-- `ConstantEvaluator::eval_expr`: increment the depth, fail with
`RecursionLimitReached` if it now exceeds `RECURSION_LIMIT` (note this early
return skips the decrement), otherwise evaluate the expression, back-fill a
dummy error span with this expression's span, and decrement the depth.

The extra `fuel` argument only makes the recursion structural: exhausted fuel
returns exactly what the depth check returns, and `eval_expr_go_fuel_stable`
below shows that every fuel of at least `RECURSION_LIMIT + 1 - depth` yields
the same result, so the wrapper `eval_expr` below is fuel-independent. -/
def eval_expr_go (g : Gcx) : Nat → Expr → Nat → Except EvalError IntScalar × Nat
  | 0, e, depth =>
    (.error (EvalErrorKind.RecursionLimitReached.spanned e.span), depth + 1)
  | fuel + 1, e, depth =>
    if RECURSION_LIMIT < depth + 1 then
      (.error (EvalErrorKind.RecursionLimitReached.spanned e.span), depth + 1)
    else
      let r := eval_expr_inner g (eval_expr_go g fuel) e (depth + 1)
      (backfill r.1 e.span, r.2 - 1)

/-- `ConstantEvaluator::eval_expr` at the canonical fuel. -/
def eval_expr (g : Gcx) (e : Expr) (depth : Nat) : Except EvalError IntScalar × Nat :=
  eval_expr_go g (RECURSION_LIMIT + 1) e depth

/-- Modelled from the spec: a diagnostic as assembled by the failure path of
`eval` — the message, the primary location, and one secondary note (location
plus message). The rendering sink itself is external to this repository. -/
structure Diag where
  msg : String
  primary : Span
  note_span : Span
  note_msg : String
deriving DecidableEq

/-- Modelled from the spec: the diagnostic sink records the diagnostic and
returns a fresh opaque reported-token (here, the diagnostic's index). -/
def emit (dcx : List Diag) (d : Diag) : List Diag × ErrorGuaranteed :=
  (dcx ++ [d], dcx.length)

/-- `ConstantEvaluator::eval`: evaluate, and on failure either return the
already-carried token (for `AlreadyEmitted`) without emitting, or emit one
diagnostic whose primary location is the outermost expression's span and whose
note carries the failure's own location and message, returning the token that
emission produced. The result is returned together with the evaluator's depth
and the diagnostic context after the call. -/
def eval (g : Gcx) (e : Expr) (depth : Nat) (dcx : List Diag) :
    Except ErrorGuaranteed IntScalar × Nat × List Diag :=
  match eval_expr g e depth with
  | (.ok v, d2) => (.ok v, d2, dcx)
  | (.error er, d2) =>
    match er.kind with
    | .AlreadyEmitted guar => (.error guar, d2, dcx)
    | k =>
      let r := emit dcx { msg := "evaluation of constant value failed",
                          primary := e.span, note_span := er.span, note_msg := k.msg }
      (.error r.2, d2, r.1)

/-- A number-literal expression with a dummy span. -/
def litE (n : Nat) : Expr := .lit Span.DUMMY (.Number n)

/-- A chain of `n` bitwise-not nodes around the literal `1`: an expression
nested `n + 1` levels deep. -/
def nestExpr : Nat → Expr
  | 0 => litE 1
  | n + 1 => .unary Span.DUMMY .BitNot (nestExpr n)

/-- A concrete context: every variable is non-constant with a zero
initializer. -/
def gcx0 : Gcx := fun _ => { mutability := none, initializer := litE 0 }

/-- Expressions containing no identifier reference, whose evaluation therefore
never recurses through a variable initializer. -/
def NoIdent : Expr → Bool
  | .paren _ e => NoIdent e
  | .binary _ l _ r => NoIdent l && NoIdent r
  | .ident _ _ => false
  | .ternary _ c t f => NoIdent c && NoIdent t && NoIdent f
  | .unary _ _ v => NoIdent v
  | _ => true

/-- Syntactic nesting depth as consumed by the evaluator: one level per
dispatched node; parentheses are stripped without consuming a level
(`peel_parens`). -/
def edepth : Expr → Nat
  | .paren _ e => edepth e
  | .binary _ l _ r => max (edepth l) (edepth r) + 1
  | .ternary _ c t f => max (edepth c) (max (edepth t) (edepth f)) + 1
  | .unary _ _ v => edepth v + 1
  | _ => 1

/-- Whether a result is the recursion-limit error. -/
def hitsLimit : Except EvalError IntScalar → Bool
  | .error er =>
    match er.kind with
    | .RecursionLimitReached => true
    | _ => false
  | .ok _ => false

/-- The tilde rule as the specification words it: `a >= b`, and `a` with patch
cleared `<= b`. -/
def tildeRule (a b : SemverVersion) : Prop :=
  svGe a b = true ∧ svLe { a with patch := none } b = true

/-- The caret rule as the specification words it: `a >= b`, and a copy of `a`
with patch always cleared — and minor also cleared exactly when the tested
version's major component is greater than zero, under the wildcard-absorbing
order — `<= b`. -/
def caretRule (a b : SemverVersion) : Prop :=
  svGe a b = true ∧
    svLe { a with minor := if svnGt a.major (.Number 0) then none else a.minor,
                  patch := none } b = true

/-- A fully-present version `x.y.z` with a dummy span, used in examples. -/
def mkV (x y z : Nat) : SemverVersion :=
  ⟨Span.DUMMY, .Number x, some (.Number y), some (.Number z)⟩

instance {ε α : Type} [DecidableEq ε] [DecidableEq α] : DecidableEq (Except ε α) := fun a b =>
  match a, b with
  | .ok x, .ok y =>
    if h : x = y then .isTrue (by rw [h]) else .isFalse (fun hc => h (by cases hc; rfl))
  | .error x, .error y =>
    if h : x = y then .isTrue (by rw [h]) else .isFalse (fun hc => h (by cases hc; rfl))
  | .ok _, .error _ => .isFalse (fun hc => Except.noConfusion hc)
  | .error _, .ok _ => .isFalse (fun hc => Except.noConfusion hc)

/-- Claim C2: a caret component `^b` matches `a` iff `a >= b` and the copy of
`a` with patch cleared — and minor also cleared exactly when the tested
version's major is greater than 0 (the widening decision is keyed on the
tested version's major, which appears in `caretRule` through `a.major`) — is
`<= b`, under the wildcard-absorbing order. -/
theorem matches_caret_spec_rule (a b : SemverVersion) :
    matches_caret a b = true ↔ caretRule a b := by
  unfold matches_caret caretRule
  by_cases hge : svGe a b
  · by_cases hgt : svnGt a.major (.Number 0) <;> simp [hge, hgt]
  · simp [hge]

/-- Claim C3: a tilde component `~b` matches `a` iff `a >= b` and `a` with
patch cleared is `<= b`; in particular `~1.2.3` matches `1.2.3` and `1.2.9`
and does not match `1.3.0` or `1.2.2`. -/
theorem matches_tilde_spec_rule :
    (∀ a b : SemverVersion, matches_tilde a b = true ↔ tildeRule a b) ∧
    matches_tilde (mkV 1 2 3) (mkV 1 2 3) = true ∧
    matches_tilde (mkV 1 2 9) (mkV 1 2 3) = true ∧
    matches_tilde (mkV 1 3 0) (mkV 1 2 3) = false ∧
    matches_tilde (mkV 1 2 2) (mkV 1 2 3) = false := by
  refine ⟨fun a b => ?_, by decide, by decide, by decide, by decide⟩
  unfold matches_tilde tildeRule
  by_cases hge : svGe a b <;> simp [hge]

/-- Claim C4: `Wildcard` is equal to and compares `Equal` against every
`Number`, in both operand orders; two `Number`s equate and compare as their
underlying values do. -/
theorem semver_wildcard_absorbing (n m : Nat) :
    svnEq .Wildcard (.Number n) = true ∧
    svnEq (.Number n) .Wildcard = true ∧
    svnCmp .Wildcard (.Number n) = .eq ∧
    svnCmp (.Number n) .Wildcard = .eq ∧
    svnEq (.Number n) (.Number m) = (n == m) ∧
    svnCmp (.Number n) (.Number m) = compare n m :=
  ⟨rfl, rfl, rfl, rfl, rfl, rfl⟩

/-- Claim C5: `Version::cmp` compares major, then minor, then patch, and a
position where either side is absent contributes `Equal` regardless of the
other side — the absent field is ignored, not treated as zero (witnessed by
`1.(absent).3` comparing equal to `1.2.3`). -/
theorem semver_cmp_componentwise_absent_equal :
    (∀ v1 v2 : SemverVersion, SemverVersion.cmp v1 v2 =
      (svnCmp v1.major v2.major).then
        ((cmp_opt v1.minor v2.minor).then (cmp_opt v1.patch v2.patch))) ∧
    (∀ o : Option SemverVersionNumber, cmp_opt none o = .eq ∧ cmp_opt o none = .eq) ∧
    SemverVersion.cmp ⟨Span.DUMMY, .Number 1, none, some (.Number 3)⟩
      ⟨Span.DUMMY, .Number 1, some (.Number 2), some (.Number 3)⟩ = .eq := by
  refine ⟨fun v1 v2 => rfl, fun o => ⟨rfl, ?_⟩, by decide⟩
  cases o <;> rfl

/-- Claim C6: `IntScalar::binop` returns `ArithmeticOverflow` on add, sub, mul
and pow exactly when the exact integer result falls outside the unsigned
256-bit range, and `DivisionByZero` on div and rem exactly when the divisor is
zero; consequently `eval(2 + 3)` yields `5`, `eval(2 ** 256)` fails with
`ArithmeticOverflow` and `eval(1 / 0)` fails with `DivisionByZero`. -/
theorem binop_checked_arith :
    (∀ l r : Nat, l < WORD → r < WORD →
      (IntScalar.binop ⟨l⟩ ⟨r⟩ .Add = .error .ArithmeticOverflow ↔ WORD ≤ l + r) ∧
      (IntScalar.binop ⟨l⟩ ⟨r⟩ .Sub = .error .ArithmeticOverflow ↔ l < r) ∧
      (IntScalar.binop ⟨l⟩ ⟨r⟩ .Mul = .error .ArithmeticOverflow ↔ WORD ≤ l * r) ∧
      (IntScalar.binop ⟨l⟩ ⟨r⟩ .Pow = .error .ArithmeticOverflow ↔ WORD ≤ l ^ r) ∧
      (IntScalar.binop ⟨l⟩ ⟨r⟩ .Div = .error .DivisionByZero ↔ r = 0) ∧
      (IntScalar.binop ⟨l⟩ ⟨r⟩ .Rem = .error .DivisionByZero ↔ r = 0)) ∧
    ((eval_expr gcx0 (.binary Span.DUMMY (litE 2) .Add (litE 3)) 0).1 = .ok ⟨5⟩ ∧
      (eval_expr gcx0 (.binary Span.DUMMY (litE 2) .Pow (litE 256)) 0).1 =
        .error ⟨Span.DUMMY, .ArithmeticOverflow⟩ ∧
      (eval_expr gcx0 (.binary Span.DUMMY (litE 1) .Div (litE 0)) 0).1 =
        .error ⟨Span.DUMMY, .DivisionByZero⟩) := by
  refine ⟨fun l r hl hr => ⟨?_, ?_, ?_, ?_, ?_, ?_⟩, by decide, by decide, by decide⟩
  · simp only [IntScalar.binop, checked_add]
    split_ifs with h
    · exact iff_of_false (by simp) (by omega)
    · exact iff_of_true rfl (by omega)
  · simp only [IntScalar.binop, checked_sub]
    split_ifs with h
    · exact iff_of_false (by simp) (by omega)
    · exact iff_of_true rfl (by omega)
  · simp only [IntScalar.binop, checked_mul]
    split_ifs with h
    · exact iff_of_false (by simp) (by omega)
    · exact iff_of_true rfl (by omega)
  · simp only [IntScalar.binop, checked_pow]
    split_ifs with h
    · exact iff_of_false (by simp) (by omega)
    · exact iff_of_true rfl (by omega)
  · simp only [IntScalar.binop, checked_div]
    split_ifs with h
    · exact iff_of_true rfl h
    · exact iff_of_false (by simp) h
  · simp only [IntScalar.binop, checked_rem]
    split_ifs with h
    · exact iff_of_true rfl h
    · exact iff_of_false (by simp) h

/-- Witness for `binop_checked_arith` at concrete inputs. -/
theorem binop_checked_arith_witness :
    IntScalar.binop ⟨WORD - 1⟩ ⟨2⟩ .Add = .error .ArithmeticOverflow ∧
    IntScalar.binop ⟨1⟩ ⟨0⟩ .Div = .error .DivisionByZero := by
  have h := binop_checked_arith.1 (WORD - 1) 2 (by norm_num [WORD]) (by norm_num [WORD])
  exact ⟨h.1.mpr (by norm_num [WORD]),
    (binop_checked_arith.1 1 0 (by norm_num [WORD]) (by norm_num [WORD])).2.2.2.2.1.mpr rfl⟩

/-- Claim C7: the shift operations `Shl`, logical `Shr` and arithmetic `Sar`
never return an error, and a shift amount of 256 or more (including amounts
clamped from beyond `usize`) shifts all bits out: zero for `Shl`/`Shr`, and
the sign extension (all ones iff bit 255 of the left operand is set) for
`Sar`. -/
theorem binop_shift_total_saturating (l r : Nat) (hl : l < WORD) (hr : r < WORD) :
    (∃ v, IntScalar.binop ⟨l⟩ ⟨r⟩ .Shl = .ok v) ∧
    (∃ v, IntScalar.binop ⟨l⟩ ⟨r⟩ .Shr = .ok v) ∧
    (∃ v, IntScalar.binop ⟨l⟩ ⟨r⟩ .Sar = .ok v) ∧
    (256 ≤ r →
      IntScalar.binop ⟨l⟩ ⟨r⟩ .Shl = .ok ⟨0⟩ ∧
      IntScalar.binop ⟨l⟩ ⟨r⟩ .Shr = .ok ⟨0⟩ ∧
      IntScalar.binop ⟨l⟩ ⟨r⟩ .Sar = .ok ⟨if 2 ^ 255 ≤ l then WORD - 1 else 0⟩) := by
  refine ⟨⟨_, rfl⟩, ⟨_, rfl⟩, ⟨_, rfl⟩, fun h256 => ?_⟩
  have hc : 256 ≤ usize_clamp r := by
    unfold usize_clamp
    split_ifs with h64 <;> omega
  refine ⟨?_, ?_, ?_⟩
  · simp [IntScalar.binop, wrapping_shl, hc]
  · simp [IntScalar.binop, wrapping_shr, hc]
  · simp [IntScalar.binop, arithmetic_shr, hc]

/-- Witness for `binop_shift_total_saturating` at a concrete input with the
sign bit set and an oversized shift amount. -/
theorem binop_shift_total_saturating_witness :
    IntScalar.binop ⟨2 ^ 255⟩ ⟨300⟩ .Shl = .ok ⟨0⟩ ∧
    IntScalar.binop ⟨2 ^ 255⟩ ⟨300⟩ .Sar = .ok ⟨WORD - 1⟩ := by
  have h := (binop_shift_total_saturating (2 ^ 255) 300 (by norm_num [WORD])
    (by norm_num [WORD])).2.2.2 (by norm_num)
  refine ⟨h.1, ?_⟩
  have h3 := h.2.2
  rwa [if_pos (by norm_num)] at h3

/-- Claim C10: when a ternary's condition evaluates successfully, the
condition counts as true iff its 256-bit value is nonzero (`to_bool`), so any
nonzero value — not only 1 — selects the true branch and zero selects the
false branch. -/
theorem ternary_condition_nonzero :
    (∀ (g : Gcx) (ev : Expr → Nat → Except EvalError IntScalar × Nat) (sp : Span)
        (c t f : Expr) (d d1 : Nat) (v : IntScalar),
      ev c d = (.ok v, d1) →
        (v.data ≠ 0 → eval_expr_inner g ev (.ternary sp c t f) d = ev t d1) ∧
        (v.data = 0 → eval_expr_inner g ev (.ternary sp c t f) d = ev f d1)) ∧
    (∀ s : IntScalar, s.to_bool = true ↔ s.data ≠ 0) := by
  constructor
  · intro g ev sp c t f d d1 v h
    constructor <;> intro hv <;>
      simp [eval_expr_inner, Expr.peel_parens, h, IntScalar.to_bool, hv]
  · intro s
    simp [IntScalar.to_bool]

/-- Witness for `ternary_condition_nonzero`: the condition value 7 (nonzero
but not 1) selects the true branch, and 0 selects the false branch. -/
theorem ternary_condition_nonzero_witness :
    eval_expr_inner gcx0 (eval_expr_go gcx0 5) (.ternary Span.DUMMY (litE 7) (litE 1) (litE 0)) 0
      = eval_expr_go gcx0 5 (litE 1) 0 ∧
    eval_expr_inner gcx0 (eval_expr_go gcx0 5) (.ternary Span.DUMMY (litE 0) (litE 1) (litE 2)) 0
      = eval_expr_go gcx0 5 (litE 2) 0 :=
  ⟨(ternary_condition_nonzero.1 gcx0 (eval_expr_go gcx0 5) Span.DUMMY (litE 7) (litE 1) (litE 0)
      0 0 ⟨7⟩ (by decide)).1 (by decide),
   (ternary_condition_nonzero.1 gcx0 (eval_expr_go gcx0 5) Span.DUMMY (litE 0) (litE 1) (litE 2)
      0 0 ⟨0⟩ (by decide)).2 rfl⟩

/-- Claim C9: a failing top-level `eval` returns the carried token without
emitting anything when the failure is `AlreadyEmitted`; for every other
failure kind it emits exactly one diagnostic — primary location the outermost
expression's span, secondary note at the failure's own location — and returns
the token produced by that emission. -/
theorem eval_diagnostic_policy (g : Gcx) (e : Expr) (d : Nat) (dcx : List Diag)
    (er : EvalError) (h : (eval_expr g e d).1 = .error er) :
    ((∀ guar, er.kind ≠ .AlreadyEmitted guar) →
      eval g e d dcx =
        (.error dcx.length, (eval_expr g e d).2,
          dcx ++ [⟨"evaluation of constant value failed", e.span, er.span, er.kind.msg⟩])) ∧
    (∀ guar, er.kind = .AlreadyEmitted guar →
      eval g e d dcx = (.error guar, (eval_expr g e d).2, dcx)) := by
  rcases hE : eval_expr g e d with ⟨res, d2⟩
  rw [hE] at h
  simp only at h
  subst h
  constructor
  · intro hk
    rcases er with ⟨sp, k⟩
    cases k <;>
      simp_all [eval, hE, emit, EvalErrorKind.msg]
  · intro guar hg
    rcases er with ⟨sp, k⟩
    cases hg
    simp [eval, hE]

/-- Witness for `eval_diagnostic_policy`: an already-diagnosed error node
returns its token 7 with no new diagnostic; an unsupported expression emits
exactly one diagnostic and returns its token. -/
theorem eval_diagnostic_policy_witness :
    eval gcx0 (.err Span.DUMMY 7) 0 [] = (.error 7, 0, []) ∧
    eval gcx0 (.other Span.DUMMY) 0 [] =
      (.error 0, 0,
        [⟨"evaluation of constant value failed", Span.DUMMY, Span.DUMMY,
          "unsupported expression"⟩]) := by
  constructor
  · have h := (eval_diagnostic_policy gcx0 (.err Span.DUMMY 7) 0 []
      ⟨Span.DUMMY, .AlreadyEmitted 7⟩ (by decide)).2 7 rfl
    exact h.trans (by decide)
  · have h := (eval_diagnostic_policy gcx0 (.other Span.DUMMY) 0 []
      ⟨Span.DUMMY, .UnsupportedExpr⟩ (by decide)).1 (fun guar hg => by cases hg)
    exact h.trans (by decide)

/-- Every expression has nesting depth at least one. -/
theorem edepth_pos (e : Expr) : 1 ≤ edepth e := by
  induction e <;> simp_all [edepth]

/-- Back-filling an error span does not change whether the result is the
recursion-limit error. -/
theorem hitsLimit_backfill (r : Except EvalError IntScalar) (sp : Span) :
    hitsLimit (backfill r sp) = hitsLimit r := by
  cases r with
  | ok v => rfl
  | error er =>
    rcases er with ⟨s, k⟩
    simp only [backfill]
    split <;> rfl

/-- `binop` never produces the recursion-limit error. -/
theorem hitsLimit_liftKind_binop (l r : IntScalar) (op : BinOpKind) :
    hitsLimit (liftKind (IntScalar.binop l r op)) = false := by
  cases op <;>
    (simp only [IntScalar.binop]; first | rfl | (split <;> rfl))

/-- `unop` never produces the recursion-limit error. -/
theorem hitsLimit_liftKind_unop (s : IntScalar) (op : UnOpKind) :
    hitsLimit (liftKind (IntScalar.unop s op)) = false := by
  cases op <;> rfl

/-- `eval_lit` never produces the recursion-limit error. -/
theorem hitsLimit_eval_lit (k : LitKind) : hitsLimit (eval_lit k) = false := by
  cases k <;> first | rfl | (simp only [eval_lit]; split <;> rfl)

/-- The dispatch of `eval_expr_inner` is insensitive to an enclosing
parenthesis node (`peel_parens` strips it). -/
theorem eval_expr_inner_paren (g : Gcx) (ev : Expr → Nat → Except EvalError IntScalar × Nat)
    (sp : Span) (e : Expr) (d : Nat) :
    eval_expr_inner g ev (.paren sp e) d = eval_expr_inner g ev e d := by
  simp only [eval_expr_inner, Expr.peel_parens]

/-- An identifier-free expression whose nesting depth fits under the ceiling
evaluates without tripping the depth check, and restores the depth counter. -/
theorem go_shallow (g : Gcx) (e : Expr) :
    ∀ d fuel : Nat, NoIdent e = true → d + edepth e ≤ RECURSION_LIMIT → edepth e ≤ fuel →
      (eval_expr_go g fuel e d).2 = d ∧ hitsLimit (eval_expr_go g fuel e d).1 = false := by
  induction e with
  | paren sp e ih =>
    intro d fuel hni hd hf
    have hp := edepth_pos e
    simp only [edepth, NoIdent] at hd hf hni
    simp only [RECURSION_LIMIT] at hd
    obtain ⟨f, rfl⟩ : ∃ f, fuel = f + 1 := ⟨fuel - 1, by omega⟩
    have ihe := ih d (f + 1) hni (by simp only [RECURSION_LIMIT]; omega) hf
    simp only [eval_expr_go, RECURSION_LIMIT, Expr.span,
      if_neg (show ¬ (64 : Nat) < d + 1 by omega)] at ihe ⊢
    rw [eval_expr_inner_paren]
    refine ⟨ihe.1, ?_⟩
    rw [hitsLimit_backfill]
    have h2 := ihe.2
    rw [hitsLimit_backfill] at h2
    exact h2
  | binary sp l op r ihl ihr =>
    intro d fuel hni hd hf
    have hpl := edepth_pos l
    have hpr := edepth_pos r
    simp only [edepth, NoIdent, Bool.and_eq_true] at hd hf hni
    simp only [RECURSION_LIMIT] at hd
    obtain ⟨f, rfl⟩ : ∃ f, fuel = f + 1 := ⟨fuel - 1, by omega⟩
    have ihl1 := ihl (d + 1) f hni.1 (by simp only [RECURSION_LIMIT]; omega) (by omega)
    have ihr1 := ihr (d + 1) f hni.2 (by simp only [RECURSION_LIMIT]; omega) (by omega)
    simp only [eval_expr_go, RECURSION_LIMIT, Expr.span,
      if_neg (show ¬ (64 : Nat) < d + 1 by omega)]
    simp only [eval_expr_inner, Expr.peel_parens]
    rcases h1 : eval_expr_go g f l (d + 1) with ⟨res1, d1⟩
    rw [h1] at ihl1
    simp only at ihl1
    obtain ⟨hd1, hres1⟩ := ihl1
    subst hd1
    cases res1 with
    | error er =>
      refine ⟨?_, ?_⟩ <;> simp [hitsLimit_backfill, hres1]
    | ok lv =>
      dsimp only
      rcases h2 : eval_expr_go g f r (d + 1) with ⟨res2, d2⟩
      rw [h2] at ihr1
      simp only at ihr1
      obtain ⟨hd2, hres2⟩ := ihr1
      subst hd2
      cases res2 with
      | error er2 =>
        refine ⟨?_, ?_⟩ <;> simp [hitsLimit_backfill, hres2]
      | ok rv =>
        refine ⟨?_, ?_⟩ <;> simp [hitsLimit_backfill, hitsLimit_liftKind_binop]
  | ident sp rs =>
    intro d fuel hni hd hf
    simp [NoIdent] at hni
  | lit sp k =>
    intro d fuel hni hd hf
    simp only [edepth] at hf
    simp only [edepth, RECURSION_LIMIT] at hd
    obtain ⟨f, rfl⟩ : ∃ f, fuel = f + 1 := ⟨fuel - 1, by omega⟩
    simp only [eval_expr_go, eval_expr_inner, Expr.peel_parens, RECURSION_LIMIT, Expr.span,
      if_neg (show ¬ (64 : Nat) < d + 1 by omega), hitsLimit_backfill]
    exact ⟨by omega, hitsLimit_eval_lit k⟩
  | ternary sp c t f ihc iht ihf =>
    intro d fuel hni hd hfl
    have hpc := edepth_pos c
    have hpt := edepth_pos t
    have hpf := edepth_pos f
    simp only [edepth, NoIdent, Bool.and_eq_true] at hd hfl hni
    simp only [RECURSION_LIMIT] at hd
    obtain ⟨fl, rfl⟩ : ∃ fl, fuel = fl + 1 := ⟨fuel - 1, by omega⟩
    have ihc1 := ihc (d + 1) fl hni.1.1 (by simp only [RECURSION_LIMIT]; omega) (by omega)
    have iht1 := iht (d + 1) fl hni.1.2 (by simp only [RECURSION_LIMIT]; omega) (by omega)
    have ihf1 := ihf (d + 1) fl hni.2 (by simp only [RECURSION_LIMIT]; omega) (by omega)
    simp only [eval_expr_go, RECURSION_LIMIT, Expr.span,
      if_neg (show ¬ (64 : Nat) < d + 1 by omega)]
    simp only [eval_expr_inner, Expr.peel_parens]
    rcases h1 : eval_expr_go g fl c (d + 1) with ⟨res1, d1⟩
    rw [h1] at ihc1
    simp only at ihc1
    obtain ⟨hd1, hres1⟩ := ihc1
    subst hd1
    cases res1 with
    | error er =>
      refine ⟨?_, ?_⟩ <;> simp [hitsLimit_backfill, hres1]
    | ok cv =>
      dsimp only
      cases hb : cv.to_bool
      · rw [if_neg (by simp [hb])]
        rcases h3 : eval_expr_go g fl f (d + 1) with ⟨res3, d3⟩
        rw [h3] at ihf1
        simp only at ihf1
        obtain ⟨hd3, hres3⟩ := ihf1
        subst hd3
        refine ⟨?_, ?_⟩ <;> simp [hitsLimit_backfill, hres3]
      · rw [if_pos (by simp [hb])]
        rcases h3 : eval_expr_go g fl t (d + 1) with ⟨res3, d3⟩
        rw [h3] at iht1
        simp only at iht1
        obtain ⟨hd3, hres3⟩ := iht1
        subst hd3
        refine ⟨?_, ?_⟩ <;> simp [hitsLimit_backfill, hres3]
  | unary sp op v ihv =>
    intro d fuel hni hd hf
    have hpv := edepth_pos v
    simp only [edepth, NoIdent] at hd hf hni
    simp only [RECURSION_LIMIT] at hd
    obtain ⟨f, rfl⟩ : ∃ f, fuel = f + 1 := ⟨fuel - 1, by omega⟩
    have ihv1 := ihv (d + 1) f hni (by simp only [RECURSION_LIMIT]; omega) (by omega)
    simp only [eval_expr_go, RECURSION_LIMIT, Expr.span,
      if_neg (show ¬ (64 : Nat) < d + 1 by omega)]
    simp only [eval_expr_inner, Expr.peel_parens]
    rcases h1 : eval_expr_go g f v (d + 1) with ⟨res1, d1⟩
    rw [h1] at ihv1
    simp only at ihv1
    obtain ⟨hd1, hres1⟩ := ihv1
    subst hd1
    cases res1 with
    | error er =>
      refine ⟨?_, ?_⟩ <;> simp [hitsLimit_backfill, hres1]
    | ok vv =>
      refine ⟨?_, ?_⟩ <;> simp [hitsLimit_backfill, hitsLimit_liftKind_unop]
  | err sp guar =>
    intro d fuel hni hd hf
    simp only [edepth] at hf
    simp only [edepth, RECURSION_LIMIT] at hd
    obtain ⟨f, rfl⟩ : ∃ f, fuel = f + 1 := ⟨fuel - 1, by omega⟩
    simp only [eval_expr_go, eval_expr_inner, Expr.peel_parens, RECURSION_LIMIT, Expr.span,
      if_neg (show ¬ (64 : Nat) < d + 1 by omega), hitsLimit_backfill]
    exact ⟨by omega, rfl⟩
  | other sp =>
    intro d fuel hni hd hf
    simp only [edepth] at hf
    simp only [edepth, RECURSION_LIMIT] at hd
    obtain ⟨f, rfl⟩ : ∃ f, fuel = f + 1 := ⟨fuel - 1, by omega⟩
    simp only [eval_expr_go, eval_expr_inner, Expr.peel_parens, RECURSION_LIMIT, Expr.span,
      if_neg (show ¬ (64 : Nat) < d + 1 by omega), hitsLimit_backfill]
    exact ⟨by omega, rfl⟩

/-- The depth counter never decreases across a call: the evaluator restores it
on balanced paths and leaves it incremented when the limit check fires. -/
theorem go_depth_ge (g : Gcx) : ∀ (fuel : Nat) (e : Expr) (d : Nat),
    d ≤ (eval_expr_go g fuel e d).2 := by
  intro fuel
  induction fuel with
  | zero =>
    intro e d
    simp [eval_expr_go]
  | succ f ih =>
    intro e d
    by_cases hc : RECURSION_LIMIT < d + 1
    · simp [eval_expr_go, hc]
    · have hinner : d + 1 ≤ (eval_expr_inner g (eval_expr_go g f) e (d + 1)).2 := by
        unfold eval_expr_inner
        cases hp : e.peel_parens with
        | paren sp e1 => dsimp only; exact Nat.le_refl _
        | binary sp l op r =>
          dsimp only
          rcases h1 : eval_expr_go g f l (d + 1) with ⟨res1, d1⟩
          have hd1 : d + 1 ≤ d1 := by have := ih l (d + 1); rw [h1] at this; exact this
          cases res1 with
          | error er => exact hd1
          | ok lv =>
            dsimp only
            rcases h2 : eval_expr_go g f r d1 with ⟨res2, d2⟩
            have hd2 : d1 ≤ d2 := by have := ih r d1; rw [h2] at this; exact this
            cases res2 <;> dsimp only <;> omega
        | ident sp rs =>
          rcases rs with _ | ⟨r0, rtl⟩
          · dsimp only; exact Nat.le_refl _
          · rcases r0 with ⟨id⟩ | _
            · rcases id with ⟨v⟩ | _
              · rcases rtl with _ | ⟨r1, rtl2⟩
                · dsimp only
                  split
                  · exact Nat.le_refl _
                  · exact ih _ (d + 1)
                · dsimp only; exact Nat.le_refl _
              · dsimp only; exact Nat.le_refl _
            · dsimp only; exact Nat.le_refl _
        | lit sp k => dsimp only; exact Nat.le_refl _
        | ternary sp c t f1 =>
          dsimp only
          rcases h1 : eval_expr_go g f c (d + 1) with ⟨res1, d1⟩
          have hd1 : d + 1 ≤ d1 := by have := ih c (d + 1); rw [h1] at this; exact this
          cases res1 with
          | error er => exact hd1
          | ok cv =>
            dsimp only
            split
            · rcases h2 : eval_expr_go g f t d1 with ⟨res2, d2⟩
              have hd2 : d1 ≤ d2 := by have := ih t d1; rw [h2] at this; exact this
              omega
            · rcases h2 : eval_expr_go g f f1 d1 with ⟨res2, d2⟩
              have hd2 : d1 ≤ d2 := by have := ih f1 d1; rw [h2] at this; exact this
              omega
        | unary sp op v =>
          dsimp only
          rcases h1 : eval_expr_go g f v (d + 1) with ⟨res1, d1⟩
          have hd1 : d + 1 ≤ d1 := by have := ih v (d + 1); rw [h1] at this; exact this
          cases res1 <;> dsimp only <;> omega
        | err sp guar => dsimp only; exact Nat.le_refl _
        | other sp => dsimp only; exact Nat.le_refl _
      simp only [eval_expr_go, if_neg hc]
      omega

/-- Increasing the fuel by one does not change the result once the fuel covers
the remaining headroom of the depth check. -/
theorem go_fuel_succ_stable (g : Gcx) : ∀ (f : Nat) (e : Expr) (d : Nat),
    RECURSION_LIMIT + 1 ≤ f + d → eval_expr_go g f e d = eval_expr_go g (f + 1) e d := by
  intro f
  induction f with
  | zero =>
    intro e d h
    simp only [RECURSION_LIMIT] at h
    simp [eval_expr_go, show RECURSION_LIMIT < d + 1 by simp only [RECURSION_LIMIT]; omega]
  | succ f ih =>
    intro e d h
    simp only [RECURSION_LIMIT] at h
    by_cases hc : RECURSION_LIMIT < d + 1
    · simp [eval_expr_go, hc]
    · have hc64 : d + 1 ≤ 64 := by simp only [RECURSION_LIMIT] at hc; omega
      have hinner : eval_expr_inner g (eval_expr_go g f) e (d + 1)
          = eval_expr_inner g (eval_expr_go g (f + 1)) e (d + 1) := by
        unfold eval_expr_inner
        cases hp : e.peel_parens with
        | paren sp e1 => rfl
        | binary sp l op r =>
          dsimp only
          rw [← ih l (d + 1) (by simp only [RECURSION_LIMIT]; omega)]
          rcases h1 : eval_expr_go g f l (d + 1) with ⟨res1, d1⟩
          have hd1 : d + 1 ≤ d1 := by
            have := go_depth_ge g f l (d + 1); rw [h1] at this; exact this
          cases res1 with
          | error er => rfl
          | ok lv =>
            dsimp only
            rw [← ih r d1 (by simp only [RECURSION_LIMIT]; omega)]
        | ident sp rs =>
          rcases rs with _ | ⟨r0, rtl⟩
          · rfl
          · rcases r0 with ⟨id⟩ | _
            · rcases id with ⟨v⟩ | _
              · rcases rtl with _ | ⟨r1, rtl2⟩
                · dsimp only
                  split
                  · rfl
                  · exact ih _ (d + 1) (by simp only [RECURSION_LIMIT]; omega)
                · rfl
              · rfl
            · rfl
        | lit sp k => rfl
        | ternary sp c t f1 =>
          dsimp only
          rw [← ih c (d + 1) (by simp only [RECURSION_LIMIT]; omega)]
          rcases h1 : eval_expr_go g f c (d + 1) with ⟨res1, d1⟩
          have hd1 : d + 1 ≤ d1 := by
            have := go_depth_ge g f c (d + 1); rw [h1] at this; exact this
          cases res1 with
          | error er => rfl
          | ok cv =>
            dsimp only
            split
            · exact ih t d1 (by simp only [RECURSION_LIMIT]; omega)
            · exact ih f1 d1 (by simp only [RECURSION_LIMIT]; omega)
        | unary sp op v =>
          dsimp only
          rw [← ih v (d + 1) (by simp only [RECURSION_LIMIT]; omega)]
        | err sp guar => rfl
        | other sp => rfl
      have lhs_eq : eval_expr_go g (f + 1) e d
          = (backfill (eval_expr_inner g (eval_expr_go g f) e (d + 1)).1 e.span,
             (eval_expr_inner g (eval_expr_go g f) e (d + 1)).2 - 1) := by
        simp only [eval_expr_go, if_neg hc]
      have rhs_eq : eval_expr_go g (f + 1 + 1) e d
          = (backfill (eval_expr_inner g (eval_expr_go g (f + 1)) e (d + 1)).1 e.span,
             (eval_expr_inner g (eval_expr_go g (f + 1)) e (d + 1)).2 - 1) := by
        simp only [eval_expr_go, if_neg hc]
      rw [lhs_eq, rhs_eq, hinner]

/-- Any two sufficient fuels compute the same result. -/
theorem go_fuel_stable (g : Gcx) (f1 f2 : Nat) (e : Expr) (d : Nat)
    (h1 : RECURSION_LIMIT + 1 ≤ f1 + d) (h2 : RECURSION_LIMIT + 1 ≤ f2 + d) :
    eval_expr_go g f1 e d = eval_expr_go g f2 e d := by
  have key : ∀ (f k : Nat), RECURSION_LIMIT + 1 ≤ f + d →
      eval_expr_go g f e d = eval_expr_go g (f + k) e d := by
    intro f k hf
    induction k with
    | zero => rfl
    | succ k ihk =>
      have hs : f + (k + 1) = (f + k) + 1 := rfl
      rw [hs, ihk]
      exact go_fuel_succ_stable g (f + k) e d (by omega)
  rcases Nat.le_total f1 f2 with h | h
  · have := key f1 (f2 - f1) h1
    rwa [Nat.add_sub_cancel' h] at this
  · have := key f2 (f1 - f2) h2
    rw [Nat.add_sub_cancel' h] at this
    exact this.symm

/-- The canonical fuel of `eval_expr` is sufficient at every depth: every
sufficient fuel computes the same result, so `eval_expr` does not depend on
the termination device. -/
theorem eval_expr_fuel_canonical (g : Gcx) (e : Expr) (depth f : Nat)
    (hf : RECURSION_LIMIT + 1 ≤ f + depth) :
    eval_expr_go g f e depth = eval_expr g e depth :=
  go_fuel_stable g f (RECURSION_LIMIT + 1) e depth hf (by omega)

/-- Claim C8: from a fresh evaluator (depth 0), an expression nested 65 levels
deep — `nestExpr 64` — fails with `RecursionLimitReached`, while an
identifier-free expression nested at most 64 levels deep is never rejected by
the depth check (identifier references are excluded since evaluating one
recurses into its initializer, adding nesting not visible in the expression
itself). -/
theorem recursion_limit_ceiling :
    (∀ g : Gcx, (eval_expr g (nestExpr 64) 0).1 =
      .error ⟨Span.DUMMY, .RecursionLimitReached⟩) ∧
    (∀ (g : Gcx) (e : Expr), NoIdent e = true → edepth e ≤ RECURSION_LIMIT →
      hitsLimit (eval_expr g e 0).1 = false) := by
  constructor
  · intro g
    rfl
  · intro g e hni hd
    exact (go_shallow g e 0 (RECURSION_LIMIT + 1) hni (by simpa using hd)
      (le_trans hd (Nat.le_succ _))).2

/-- Witness for `recursion_limit_ceiling`: the 64-level-deep chain
`nestExpr 63` is not rejected by the depth check. -/
theorem recursion_limit_ceiling_witness :
    hitsLimit (eval_expr gcx0 (nestExpr 63) 0).1 = false :=
  recursion_limit_ceiling.2 gcx0 (nestExpr 63) (by decide) (by decide)

/-- Claim C1 is refuted by the code: the recursion-limit early return in
`eval_expr` happens after the increment but skips the decrement, so a fresh
evaluator (depth 0) that evaluates a 65-level-deep expression ends the call
with its depth field equal to 1, not 0. -/
theorem eval_expr_depth_leak_at_limit :
    (eval_expr gcx0 (nestExpr 64) 0).2 = 1 ∧ ¬ (eval_expr gcx0 (nestExpr 64) 0).2 = 0 := by
  exact ⟨by decide, by decide⟩

end Solar
